import Mathlib

/-!
Formal model of the HTML → SCORM 1.2 packager (`src/streamlit_app.py`).

The program stages an uploaded HTML file or zip archive into a content tree,
selects a launch file, generates a SCORM 1.2 `imsmanifest.xml` via
`xml.etree.ElementTree`, and packages everything into a zip.  The model
embeds the program's own logic together with the CPython 3.11 standard
library behaviour it relies on (`str.replace`, `str.strip`, `str.lower`,
`pathlib.Path.rglob`, `xml.etree.ElementTree` serialization).
-/

namespace HtmlToScorm

/-! ### Python string primitives (CPython semantics) -/

/-- CPython `str.replace(old, new)` on explicit character lists: scan left
to right, replacing each non-overlapping occurrence of `old` by `new`.
The fuel argument (instantiated with the input length) only makes the
recursion structural: every step consumes at least one character, so the
fuel never runs out.  (CPython treats an empty `old` specially; the
program only ever replaces the single-character patterns `'\\'` and
`' '`, and the escape helpers `&`, `<`, `>`, `"`, CR, LF, TAB.) -/
def replaceGo (old new : List Char) : Nat → List Char → List Char
  | _, [] => []
  | 0, s => s
  | n + 1, c :: rest =>
    if old ≠ [] ∧ old.isPrefixOf (c :: rest) then
      new ++ replaceGo old new n (rest.drop (old.length - 1))
    else
      c :: replaceGo old new n rest

/-- CPython `s.replace(old, new)` on strings. -/
def pyReplace (s old new : String) : String :=
  ⟨replaceGo old.data new.data s.data.length s.data⟩

/-- The characters CPython `str.strip()` removes (the ASCII whitespace
characters; the model restricts titles to ASCII where this matters). -/
def isPyWspace (c : Char) : Bool :=
  c = ' ' || c = '\t' || c = '\n' || c = '\r' || c = Char.ofNat 11 || c = Char.ofNat 12

/-- CPython `str.strip()` (ASCII fragment): drop leading and trailing
whitespace characters. -/
def pyStrip (s : String) : String :=
  ⟨((s.data.dropWhile isPyWspace).reverse.dropWhile isPyWspace).reverse⟩

/-- CPython `str.lower()` on ASCII strings (`Char.toLower` lowercases
exactly the ASCII uppercase letters). -/
def pyLower (s : String) : String :=
  ⟨s.data.map Char.toLower⟩

/-- CPython `str.endswith(suffix)`: the suffix's characters are a suffix
of the string's characters. -/
def pyEndsWith (s suffix : String) : Bool :=
  suffix.data.isSuffixOf s.data

/-- Final path component of a `/`-separated relative path (POSIX flavour,
as used by `pathlib` on the deployment platform): the characters after
the last `/`. -/
def lastComponent (s : String) : String :=
  ⟨(s.data.reverse.takeWhile (fun c => !(c == '/'))).reverse⟩

/-- `pathlib.Path.rglob('*' ++ suffix)` name matching: `fnmatch` of the
pattern `*.html` (resp. `*.htm`) against the final path component holds
exactly when that component ends with the suffix.  `rglob` applies the
pattern to *names* of all descendants — both files and directories. -/
def rglobMatch (suffix : String) (path : String) : Bool :=
  pyEndsWith (lastComponent path) suffix

/-- Lexicographic (code-point) strict comparison of character lists:
CPython `str.__lt__`. -/
def strLtL : List Char → List Char → Bool
  | [], [] => false
  | [], _ :: _ => true
  | _ :: _, [] => false
  | a :: as, b :: bs =>
    if a < b then true
    else if b < a then false
    else strLtL as bs

/-- The non-strict comparison CPython's stable `sorted` induces on
strings: `a ≤ b` as `¬ b < a`. -/
def strLeB (a b : String) : Bool :=
  !(strLtL b.data a.data)

/-! ### `xml.etree.ElementTree` model

An element has a tag, an ordered attribute list (Python `dict` preserves
insertion order), optional text, and children.  `tail` is never set by the
program and is omitted. -/

inductive XElem where
  | mk (tag : String) (attrs : List (String × String)) (text : Option String) (children : List XElem)

def XElem.tag : XElem → String
  | .mk t _ _ _ => t

def XElem.attrs : XElem → List (String × String)
  | .mk _ a _ _ => a

def XElem.text : XElem → Option String
  | .mk _ _ t _ => t

def XElem.children : XElem → List XElem
  | .mk _ _ _ c => c

/-- `ElementTree._escape_cdata`: replace `&`, then `<`, then `>`.  (The
`if pat in text` guards in CPython only skip identity replacements.) -/
def escape_cdata (s : String) : String :=
  pyReplace (pyReplace (pyReplace s "&" "&amp;") "<" "&lt;") ">" "&gt;"

/-- `ElementTree._escape_attrib`: replace `&`, `<`, `>`, `"`, CR, LF, TAB
in this order. -/
def escape_attrib (s : String) : String :=
  pyReplace (pyReplace (pyReplace (pyReplace (pyReplace (pyReplace (pyReplace
    s "&" "&amp;") "<" "&lt;") ">" "&gt;") "\"" "&quot;") "\r" "&#13;") "\n" "&#10;") "\t" "&#09;"

def NS_IMSCP : String := "http://www.imsglobal.org/xsd/imscp_v1p1"
def NS_ADLCP : String := "http://www.adlnet.org/xsd/adlcp_v1p3"
def NS_XSI : String := "http://www.w3.org/2001/XMLSchema-instance"

/-- Split a character list at its last `\x7d` brace: returns the part
before and after it (the `rsplit` step of ElementTree qualified-name
parsing). -/
def splitAtLastBrace : List Char → Option (List Char × List Char)
  | [] => none
  | c :: rest =>
    match splitAtLastBrace rest with
    | some (u, l) => some (c :: u, l)
    | none => if c = '\x7d' then some ([], rest) else none

/-- ElementTree qualified-name parsing: a name of the form
`\x7buri\x7dlocal` splits into `(uri, local)`; anything else is an
unqualified name. -/
def qualifiedSplit (q : String) : Option (String × String) :=
  match q.data with
  | '\x7b' :: rest =>
    match splitAtLastBrace rest with
    | some (u, l) => some (⟨u⟩, ⟨l⟩)
    | none => none
  | _ => none

/-- `ElementTree._namespace_map` after the program's three
`register_namespace` calls (lines 25-27): the CPython well-known prefixes
with the default prefix registered for the IMS CP namespace, `adlcp` for
the ADL namespace, and `xsi` (re-)registered for the XMLSchema-instance
namespace. -/
def namespaceRegistry : List (String × String) :=
  [ ("http://www.w3.org/XML/1998/namespace", "xml"),
    ("http://www.w3.org/1999/xhtml", "html"),
    ("http://www.w3.org/1999/02/22-rdf-syntax-ns#", "rdf"),
    ("http://schemas.xmlsoap.org/wsdl/", "wsdl"),
    ("http://www.w3.org/2001/XMLSchema", "xs"),
    ("http://purl.org/dc/elements/1.1/", "dc"),
    (NS_IMSCP, ""), (NS_ADLCP, "adlcp"), (NS_XSI, "xsi") ]

/-- One step of `ElementTree._namespaces.add_qname`: record the namespace
of a qualified name, keyed by URI, first occurrence first; the prefix comes
from the registry, else a generated `nsN`; the reserved `xml` prefix is
never recorded. -/
def nsAdd (acc : List (String × String)) (q : String) : List (String × String) :=
  match qualifiedSplit q with
  | none => acc
  | some (uri, _) =>
    match acc.lookup uri with
    | some _ => acc
    | none =>
      let pfx := match namespaceRegistry.lookup uri with
                 | some p => p
                 | none => "ns" ++ toString acc.length
      if pfx = "xml" then acc else acc ++ [(uri, pfx)]

mutual
/-- `ElementTree._namespaces`, element part: process the tag, then the
attribute keys, then the children (document order of `elem.iter()`). -/
def nsCollectElem : XElem → List (String × String) → List (String × String)
  | .mk tag attrs _ children, acc =>
    nsCollectList children (attrs.foldl (fun a kv => nsAdd a kv.1) (nsAdd acc tag))

/-- `ElementTree._namespaces`, children part. -/
def nsCollectList : List XElem → List (String × String) → List (String × String)
  | [], acc => acc
  | c :: cs, acc => nsCollectList cs (nsCollectElem c acc)
end

/-- Serialized form of a (possibly qualified) name, given the collected
namespace table: `local`, `pfx:local`, or the name itself when
unqualified.  The reserved `xml` prefix is resolved even though it is not
recorded in the table. -/
def qnameOf (ns : List (String × String)) (q : String) : String :=
  match qualifiedSplit q with
  | none => q
  | some (uri, loc) =>
    match ns.lookup uri with
    | some "" => loc
    | some p => p ++ ":" ++ loc
    | none => "xml:" ++ loc

/-- One serialized attribute: `· k="escaped v"` (leading space). -/
def attrChunk (ns : List (String × String)) (kv : String × String) : String :=
  " " ++ qnameOf ns kv.1 ++ "=\"" ++ escape_attrib kv.2 ++ "\""

/-- One serialized namespace declaration: `· xmlns[:pfx]="uri"`. -/
def xmlnsChunk (uriPfx : String × String) : String :=
  " xmlns" ++ (if uriPfx.2 = "" then "" else ":" ++ uriPfx.2) ++
    "=\"" ++ escape_attrib uriPfx.1 ++ "\""

/-- Concatenation of a list of strings (the serializer writes its chunks
sequentially). -/
def joinStr : List String → String
  | [] => ""
  | s :: rest => s ++ joinStr rest

mutual
/-- `ElementTree._serialize_xml` with `short_empty_elements=True`:
namespace declarations (root only, sorted by prefix), attributes in
insertion order, `·/>` for empty elements, text escaped as character
data. -/
def serializeElem (ns : List (String × String)) (decls : List (String × String)) :
    XElem → String
  | .mk tag attrs text children =>
    let t := qnameOf ns tag
    let opening := ("<" ++ t) ++ joinStr (decls.map xmlnsChunk) ++
      joinStr (attrs.map (attrChunk ns))
    let txt := text.getD ""
    if txt.data.isEmpty && children.isEmpty then
      opening ++ " />"
    else
      opening ++ ">" ++ escape_cdata txt ++ serializeKids ns children ++ ("</" ++ t ++ ">")

/-- Serialization of a child list (children carry no namespace
declarations). -/
def serializeKids (ns : List (String × String)) : List XElem → String
  | [] => ""
  | c :: cs => serializeElem ns [] c ++ serializeKids ns cs
end

/-- `ET.tostring(root, encoding='utf-8', method='xml')` as a string (the
byte output is its UTF-8 encoding).  With declared encoding `utf-8`,
CPython's `ElementTree.write` adds **no** XML declaration (it adds one only
when the declared encoding is none of `utf-8`, `us-ascii`, `unicode`).
Namespace declarations are emitted on the root, sorted by prefix. -/
def tostring (root : XElem) : String :=
  let ns := nsCollectElem root []
  serializeElem ns (List.insertionSort (fun a b : String × String => strLeB a.2 b.2 = true) ns) root

/-! ### `generate_manifest` (lines 19-60 of the source) -/

/-- The element tree built by `generate_manifest` before serialization:
an unqualified `manifest` root with `identifier`/`version` attributes,
`metadata` (schema "ADL SCORM", schemaversion "1.2"), `organizations`
(default ORG-1, one organization with title and one item ITEM-1 → RES-1),
and `resources` with one RES-1 `webcontent` resource whose `file` children
come from the sorted file list with backslashes replaced by slashes. -/
def manifestTree (title identifier launch_file : String) (file_list : List String) : XElem :=
  .mk "manifest" [("identifier", identifier), ("version", "1")] none
    [ .mk "metadata" [] none
        [ .mk "schema" [] (some "ADL SCORM") [],
          .mk "schemaversion" [] (some "1.2") [] ],
      .mk "organizations" [("default", "ORG-1")] none
        [ .mk "organization" [("identifier", "ORG-1")] none
            [ .mk "title" [] (some title) [],
              .mk "item" [("identifier", "ITEM-1"), ("identifierref", "RES-1")] none
                [ .mk "title" [] (some title) [] ] ] ],
      .mk "resources" [] none
        [ .mk "resource"
            [ ("identifier", "RES-1"), ("type", "webcontent"),
              ("\x7b" ++ NS_ADLCP ++ "\x7dscormtype", "sco"),
              ("href", launch_file) ] none
            ((List.insertionSort (fun a b : String => strLeB a b = true) file_list).map
              (fun f => .mk "file" [("href", pyReplace f "\\" "/")] none [])) ] ]

/-- `generate_manifest`: the manually prepended XML declaration followed by
the `ET.tostring` serialization of the tree (which, at encoding `utf-8`,
carries no declaration of its own). -/
def generate_manifest (title identifier launch_file : String) (file_list : List String) : String :=
  "<?xml version=\"1.0\" encoding=\"UTF-8\"?>\n" ++
    tostring (manifestTree title identifier launch_file file_list)

/-! ### The upload-processing pipeline (lines 63-124 of the source) -/

/-- One entry of the staged content tree under `course/`, in the
enumeration order `Path.rglob` produces (per-directory scan order, parents
before their contents).  Directories created by `extractall` are entries
with `isFile = false`; `content` is meaningful only for files. -/
structure Entry where
  path : String
  isFile : Bool
  content : String
deriving DecidableEq, Repr

/-- Outcome of `zipfile.ZipFile(...)` + `extractall` on the uploaded blob:
a well-formed archive stages a tree; a blob that is not a zip (corrupt or
ill-formed header) raises `zipfile.BadZipFile`; an archive using a
compression method CPython does not implement opens fine but raises
`NotImplementedError` during `extractall`. -/
inductive ZipView where
  | ok (entries : List Entry)
  | badZip
  | unsupportedCompression
deriving DecidableEq

/-- The uploaded blob: its declared filename, its raw bytes (used when it
is staged as a single markup document), and how `zipfile` reads it. -/
structure Upload where
  name : String
  raw : String
  zipView : ZipView

/-- How a run of the script ends short of success: `invalidArchive` and
`noContentFound` are the two `st.error` + `st.stop` paths;
`uncaughtException` is an exception no handler catches (the script
crashes). -/
inductive AppError where
  | invalidArchive
  | noContentFound
  | uncaughtException
deriving DecidableEq

/-- A successful run: the launch file and file list handed to
`generate_manifest`, the manifest bytes, the archive entries written (in
order: every staged file at its slash-normalized relative path, then
`imsmanifest.xml` holding the manifest bytes), and the download name. -/
structure PackageResult where
  launch : String
  fileList : List String
  manifestBytes : String
  entries : List (String × String)
  pkgName : String
deriving DecidableEq

/-- The staging step (lines 78-90): a `.zip` name is extracted (errors per
`ZipView`); any other name is staged as a single file, renamed to
`index.html` unless its lowercased name already ends with `index.html` or
`index.htm`. -/
def stage (u : Upload) : Except AppError (List Entry) :=
  if pyEndsWith (pyLower u.name) ".zip" then
    match u.zipView with
    | .ok es => .ok es
    | .badZip => .error .invalidArchive
    | .unsupportedCompression => .error .uncaughtException
  else
    let target := if pyEndsWith (pyLower u.name) "index.html" ||
                     pyEndsWith (pyLower u.name) "index.htm" then u.name else "index.html"
    .ok [⟨target, true, u.raw⟩]

/-- The whole `if uploaded:` block (lines 68-124): stage, enumerate
HTML/HTM matches (`rglob('*.html')` then `rglob('*.htm')`, directories
included), fail with `noContentFound` on none, pick the launch file
(`index.html` whenever an entry of that name exists at the tree root, else
the first match), enumerate all staged files, generate the manifest, and
zip everything plus `imsmanifest.xml`.  `scormId` stands for the
uuid-suffixed `scorm_id` (an injected identifier). -/
def pipeline (title scormId : String) (u : Upload) : Except AppError PackageResult :=
  match stage u with
  | .error e => .error e
  | .ok tree =>
    let htmlFiles := tree.filter (fun e => rglobMatch ".html" e.path) ++
      tree.filter (fun e => rglobMatch ".htm" e.path)
    match htmlFiles with
    | [] => .error .noContentFound
    | first :: _ =>
      let launch := if tree.any (fun e => e.path = "index.html") then "index.html"
                    else pyReplace first.path "\\" "/"
      let staged := tree.filter (·.isFile)
      let fileList := staged.map (fun e => pyReplace e.path "\\" "/")
      let manifest := generate_manifest title scormId launch fileList
      .ok { launch := launch
            fileList := fileList
            manifestBytes := manifest
            entries := staged.map (fun e => (pyReplace e.path "\\" "/", e.content)) ++
              [("imsmanifest.xml", manifest)]
            pkgName := pyReplace (pyStrip title) " " "_" ++ "_SCORM.zip" }

/-! ### Accessors used by the statements -/

/-- The `resource` element of a manifest tree (third child `resources`,
first child `resource`). -/
def resourceElem (m : XElem) : Option XElem :=
  match m.children.drop 2 with
  | resources :: _ => resources.children.head?
  | [] => none

/-- The `href` attribute values of the `file` children of the manifest's
resource. -/
def fileHrefs (m : XElem) : List String :=
  match resourceElem m with
  | none => []
  | some r => (r.children.filter (fun c => c.tag = "file")).filterMap
      (fun c => c.attrs.lookup "href")

/-- The `href` attribute of the manifest's resource. -/
def resourceHref (m : XElem) : Option String :=
  match resourceElem m with
  | none => none
  | some r => r.attrs.lookup "href"

/-! ### Spec-side comparison definitions -/

/-- Modelled from the spec's words, for comparison with the code: "the
launch file is the first HTML/HTM document found during the recursive
enumeration" — the first *file* whose name matches `*.html` or `*.htm`,
in enumeration order. -/
def specFirstHtmlDoc (tree : List Entry) : Option String :=
  ((tree.filter (fun e =>
    e.isFile && (rglobMatch ".html" e.path || rglobMatch ".htm" e.path))).head?).map (·.path)

/-- Modelled from the spec's words, for comparison with the code:
"sanitization replaces every whitespace character in the title with an
underscore and passes all other characters through unchanged". -/
def specSanitizedName (title : String) : String :=
  String.mk (title.data.map fun c => if isPyWspace c then '_' else c) ++ "_SCORM.zip"

/-! ### Absence of a second XML prolog

`hasLtQm l = true` iff `l` contains the two-character sequence `<?`
somewhere; a string with no such sequence cannot contain an XML
declaration. -/

def hasLtQm : List Char → Bool
  | [] => false
  | [_] => false
  | a :: b :: rest => (a = '<' && b = '?') || hasLtQm (b :: rest)

/-- A chunk is safe when it contains no `<?` and does not end in `<`;
safe chunks stay free of `<?` under concatenation. -/
def safeChunk (l : List Char) : Prop :=
  hasLtQm l = false ∧ l.getLast? ≠ some '<'

/-- Serialized attribute names contain no `<`. -/
def GoodAttrs (ns : List (String × String)) : List (String × String) → Prop
  | [] => True
  | kv :: rest => '<' ∉ (qnameOf ns kv.1).data ∧ GoodAttrs ns rest

mutual
/-- Well-formedness of an element for serialization-safety: the
serialized tag is nonempty, does not begin with `?`, and contains no `<`;
serialized attribute names contain no `<`; children likewise. -/
def GoodElem (ns : List (String × String)) : XElem → Prop
  | .mk tag attrs _ children =>
    (qnameOf ns tag).data ≠ [] ∧ (qnameOf ns tag).data.head? ≠ some '?' ∧
    '<' ∉ (qnameOf ns tag).data ∧
    GoodAttrs ns attrs ∧ GoodKids ns children

/-- Well-formedness of a child list. -/
def GoodKids (ns : List (String × String)) : List XElem → Prop
  | [] => True
  | c :: cs => GoodElem ns c ∧ GoodKids ns cs
end

/-! ## Lemmas: Python string primitives -/

theorem data_append (a b : String) : (a ++ b).data = a.data ++ b.data := rfl

@[simp] theorem data_mk (l : List Char) : (String.mk l).data = l := rfl

/-- With enough fuel (at least the input length), single-character
`replace` rewrites each occurrence of that character independently. -/
theorem replaceGo_singleton (a : Char) (new : List Char) :
    ∀ (n : Nat) (s : List Char), s.length ≤ n →
      replaceGo [a] new n s = s.flatMap fun c => if c = a then new else [c]
  | n, [], _ => by cases n <;> simp [replaceGo]
  | 0, c :: rest, h => by simp at h
  | n + 1, c :: rest, h => by
    rw [replaceGo]
    have hlen : rest.length ≤ n := by simpa using h
    by_cases hca : c = a
    · rw [if_pos ⟨by simp, by simp [List.isPrefixOf, hca]⟩]
      simp [replaceGo_singleton a new n rest hlen, List.flatMap_cons, hca]
    · have hpre : ¬ (([a] : List Char) ≠ [] ∧ [a].isPrefixOf (c :: rest) = true) := by
        simp only [List.isPrefixOf, List.isPrefixOf_nil_left, Bool.and_true, ne_eq,
          not_and, beq_iff_eq]
        exact fun _ h => hca h.symm
      rw [if_neg hpre]
      simp [replaceGo_singleton a new n rest hlen, List.flatMap_cons, hca]

/-- Single-character `replace` as a flat map, at the string level. -/
theorem pyReplace_singleton (s old new : String) (a : Char) (hold : old.data = [a]) :
    (pyReplace s old new).data = s.data.flatMap fun c => if c = a then new.data else [c] := by
  simp only [pyReplace, data_mk, hold]
  exact replaceGo_singleton a new.data s.data.length s.data (le_refl _)

/-- Single-character to single-character `replace` is a character map. -/
theorem pyReplace_singleton_map (s old new : String) (a b : Char)
    (hold : old.data = [a]) (hnew : new.data = [b]) :
    (pyReplace s old new).data = s.data.map fun c => if c = a then b else c := by
  rw [pyReplace_singleton s old new a hold, hnew]
  induction s.data with
  | nil => simp
  | cons c rest ih => by_cases hca : c = a <;> simp [hca, ih]

/-- After replacing every `a` by `new`, the character `a` is gone
(provided `new` avoids it). -/
theorem not_mem_pyReplace_self (s old new : String) (a : Char)
    (hold : old.data = [a]) (hnew : a ∉ new.data) : a ∉ (pyReplace s old new).data := by
  rw [pyReplace_singleton s old new a hold]
  intro hmem
  rcases List.mem_flatMap.mp hmem with ⟨c, _, hc⟩
  by_cases hca : c = a
  · rw [if_pos hca] at hc; exact hnew hc
  · rw [if_neg hca] at hc; exact hca (List.mem_singleton.mp hc ▸ rfl)

/-- Replacement introduces no character that was in neither the input nor
the replacement text. -/
theorem not_mem_pyReplace_preserve (s old new : String) (a x : Char)
    (hold : old.data = [a]) (hs : x ∉ s.data) (hnew : x ∉ new.data) :
    x ∉ (pyReplace s old new).data := by
  rw [pyReplace_singleton s old new a hold]
  intro hmem
  rcases List.mem_flatMap.mp hmem with ⟨c, hcs, hc⟩
  by_cases hca : c = a
  · rw [if_pos hca] at hc; exact hnew hc
  · rw [if_neg hca] at hc
    exact hs (List.mem_singleton.mp hc ▸ hcs)

/-- Replacing a character that does not occur is the identity. -/
theorem pyReplace_eq_self (s old new : String) (a : Char)
    (hold : old.data = [a]) (h : a ∉ s.data) : pyReplace s old new = s := by
  have key : ∀ l : List Char, a ∉ l →
      (l.flatMap fun c => if c = a then new.data else [c]) = l := by
    intro l hl
    induction l with
    | nil => simp
    | cons c rest ih =>
      have hca : c ≠ a := fun hc => hl (hc ▸ List.mem_cons_self c rest)
      simp only [List.flatMap_cons, if_neg hca, List.singleton_append]
      rw [ih fun hm => hl (List.mem_cons_of_mem c hm)]
  have hd : (pyReplace s old new).data = s.data := by
    rw [pyReplace_singleton s old new a hold]
    exact key s.data h
  cases s
  exact congrArg String.mk hd

theorem pyReplace_backslash_eq_self (s : String) (h : '\\' ∉ s.data) :
    pyReplace s "\\" "/" = s :=
  pyReplace_eq_self s "\\" "/" '\\' rfl h

theorem not_mem_data_pyReplace_backslash (s : String) :
    '\\' ∉ (pyReplace s "\\" "/").data :=
  not_mem_pyReplace_self s "\\" "/" '\\' rfl (by decide)

/-- `escape_cdata` output contains no literal `<`. -/
theorem lt_not_mem_escape_cdata (s : String) : '<' ∉ (escape_cdata s).data := by
  rw [escape_cdata]
  apply not_mem_pyReplace_preserve _ _ _ '>' '<' rfl
  · exact not_mem_pyReplace_self _ _ _ '<' rfl (by decide)
  · decide

/-- `escape_attrib` output contains no literal `<`. -/
theorem lt_not_mem_escape_attrib (s : String) : '<' ∉ (escape_attrib s).data := by
  rw [escape_attrib]
  apply not_mem_pyReplace_preserve _ _ _ '\t' '<' rfl
  · apply not_mem_pyReplace_preserve _ _ _ '\n' '<' rfl
    · apply not_mem_pyReplace_preserve _ _ _ '\r' '<' rfl
      · apply not_mem_pyReplace_preserve _ _ _ '"' '<' rfl
        · apply not_mem_pyReplace_preserve _ _ _ '>' '<' rfl
          · exact not_mem_pyReplace_self _ _ _ '<' rfl (by decide)
          · decide
        · decide
      · decide
    · decide
  · decide

/-! ## Lemmas: serialized output contains no second prolog -/

theorem hasLtQm_append :
    ∀ a : List Char, hasLtQm a = false → a.getLast? ≠ some '<' →
      hasLtQm b = false → hasLtQm (a ++ b) = false
  | [], _, _, hb => by simpa using hb
  | [x], _, hlast, hb => by
    have hx : x ≠ '<' := by simpa using hlast
    cases b with
    | nil => simp [hasLtQm]
    | cons y ys => simpa [hasLtQm, hx] using hb
  | x :: z :: zs, ha, hlast, hb => by
    simp only [hasLtQm, Bool.or_eq_false_iff] at ha
    have htail : hasLtQm ((z :: zs) ++ b) = false :=
      hasLtQm_append (z :: zs) ha.2 (by simpa using hlast) hb
    simpa [hasLtQm, ha.1] using htail

theorem hasLtQm_eq_false_of_not_lt : ∀ l : List Char, '<' ∉ l → hasLtQm l = false
  | [], _ => rfl
  | [_], _ => rfl
  | a :: b :: rest, h => by
    have ha : a ≠ '<' := fun hc => h (hc ▸ List.mem_cons_self a _)
    have htail := hasLtQm_eq_false_of_not_lt (b :: rest) fun hm => h (List.mem_cons_of_mem a hm)
    simpa [hasLtQm, ha] using htail

theorem safeChunk_of_not_lt (h : '<' ∉ l) : safeChunk l := by
  refine ⟨hasLtQm_eq_false_of_not_lt l h, fun hc => h ?_⟩
  exact List.mem_of_getLast?_eq_some hc

theorem safeChunk_append (ha : safeChunk a) (hb : safeChunk b) : safeChunk (a ++ b) := by
  refine ⟨hasLtQm_append a ha.1 ha.2 hb.1, ?_⟩
  rw [List.getLast?_append]
  cases hbl : b.getLast? with
  | none => simpa [hbl] using ha.2
  | some y => simpa [hbl] using hb.2

theorem safeChunk_cons_lt (hl : safeChunk l) (hne : l ≠ []) (hhead : l.head? ≠ some '?') :
    safeChunk ('<' :: l) := by
  constructor
  · cases l with
    | nil => exact absurd rfl hne
    | cons y ys =>
      have hy : y ≠ '?' := by simpa using hhead
      simpa [hasLtQm, hy] using hl.1
  · cases hgl : l.getLast? with
    | none => exact absurd (List.getLast?_eq_none_iff.mp hgl) hne
    | some y =>
      have h2 : ('<' :: l).getLast? = some y := by
        have h3 := @List.getLast?_append Char ['<'] l
        simpa [hgl] using h3
      rw [h2]
      simpa [hgl] using hl.2

theorem safeChunk_data_append (a b : String)
    (ha : safeChunk a.data) (hb : safeChunk b.data) : safeChunk (a ++ b).data := by
  rw [data_append]; exact safeChunk_append ha hb

theorem safeChunk_joinStr :
    ∀ parts : List String, (∀ p ∈ parts, safeChunk p.data) → safeChunk (joinStr parts).data
  | [], _ => safeChunk_of_not_lt (by simp [joinStr])
  | p :: rest, h => by
    rw [joinStr]
    exact safeChunk_data_append _ _ (h p (List.mem_cons_self p rest))
      (safeChunk_joinStr rest fun q hq => h q (List.mem_cons_of_mem p hq))

theorem not_lt_attrChunk (ns : List (String × String)) (kv : String × String)
    (hk : '<' ∉ (qnameOf ns kv.1).data) : '<' ∉ (attrChunk ns kv).data := by
  intro hmem
  simp only [attrChunk, data_append, List.mem_append] at hmem
  rcases hmem with ((((h | h) | h) | h) | h)
  · exact absurd h (by decide)
  · exact hk h
  · exact absurd h (by decide)
  · exact lt_not_mem_escape_attrib kv.2 h
  · exact absurd h (by decide)

theorem not_lt_xmlnsChunk (d : String × String) (hp : '<' ∉ d.2.data) :
    '<' ∉ (xmlnsChunk d).data := by
  intro hmem
  simp only [xmlnsChunk, data_append, List.mem_append] at hmem
  rcases hmem with ((((h | h) | h) | h) | h)
  · exact absurd h (by decide)
  · by_cases hd : d.2 = ""
    · rw [if_pos hd] at h
      exact absurd h (by decide)
    · rw [if_neg hd, data_append, List.mem_append] at h
      rcases h with h | h
      · exact absurd h (by decide)
      · exact hp h
  · exact absurd h (by decide)
  · exact lt_not_mem_escape_attrib d.1 h
  · exact absurd h (by decide)

theorem goodAttrs_mem (ns : List (String × String)) :
    ∀ attrs : List (String × String), GoodAttrs ns attrs →
      ∀ kv ∈ attrs, '<' ∉ (qnameOf ns kv.1).data
  | [], _, kv, h => absurd h (List.not_mem_nil kv)
  | kv0 :: rest, hg, kv, h => by
    rcases List.mem_cons.mp h with rfl | h
    · exact hg.1
    · exact goodAttrs_mem ns rest hg.2 kv h

mutual
/-- A serialized well-formed element is a safe chunk: it contains no `<?`
and does not end in `<`. -/
theorem safe_serializeElem (ns decls : List (String × String)) :
    ∀ e : XElem, GoodElem ns e → (∀ d ∈ decls, '<' ∉ d.2.data) →
      safeChunk (serializeElem ns decls e).data
  | .mk tag attrs text children, hg, hd => by
    obtain ⟨hne, hq, hlt, hattrs, hkids⟩ := hg
    have hTag : safeChunk ("<" ++ qnameOf ns tag).data := by
      have he : ("<" ++ qnameOf ns tag).data = '<' :: (qnameOf ns tag).data := rfl
      rw [he]
      exact safeChunk_cons_lt (safeChunk_of_not_lt hlt) hne hq
    have hJd : safeChunk (joinStr (decls.map xmlnsChunk)).data :=
      safeChunk_joinStr _ fun p hp => by
        rcases List.mem_map.mp hp with ⟨d, hdm, rfl⟩
        exact safeChunk_of_not_lt (not_lt_xmlnsChunk d (hd d hdm))
    have hJa : safeChunk (joinStr (attrs.map (attrChunk ns))).data :=
      safeChunk_joinStr _ fun p hp => by
        rcases List.mem_map.mp hp with ⟨kv, hkv, rfl⟩
        exact safeChunk_of_not_lt (not_lt_attrChunk ns kv (goodAttrs_mem ns attrs hattrs kv hkv))
    have hOpen : safeChunk (("<" ++ qnameOf ns tag) ++ joinStr (decls.map xmlnsChunk) ++
        joinStr (attrs.map (attrChunk ns))).data :=
      safeChunk_data_append _ _ (safeChunk_data_append _ _ hTag hJd) hJa
    simp only [serializeElem]
    split
    · exact safeChunk_data_append _ _ hOpen (safeChunk_of_not_lt (by decide))
    · have hClose : safeChunk ("</" ++ qnameOf ns tag ++ ">").data := by
        have h1 : safeChunk ('<' :: '/' :: (qnameOf ns tag).data) := by
          refine safeChunk_cons_lt (safeChunk_of_not_lt ?_) (by simp) (by simp)
          intro hm
          rcases List.mem_cons.mp hm with h | h
          · exact absurd h (by decide)
          · exact hlt h
        have h2 : safeChunk (['>'] : List Char) := safeChunk_of_not_lt (by decide)
        simpa [data_append] using safeChunk_append h1 h2
      exact safeChunk_data_append _ _ (safeChunk_data_append _ _ (safeChunk_data_append _ _
        (safeChunk_data_append _ _ hOpen (safeChunk_of_not_lt (by decide)))
        (safeChunk_of_not_lt (lt_not_mem_escape_cdata _)))
        (safe_serializeKids ns children hkids)) hClose

/-- Serialized well-formed children are a safe chunk. -/
theorem safe_serializeKids (ns : List (String × String)) :
    ∀ cs : List XElem, GoodKids ns cs → safeChunk (serializeKids ns cs).data
  | [], _ => safeChunk_of_not_lt (by simp [serializeKids])
  | c :: cs, h => by
    rw [serializeKids]
    exact safeChunk_data_append _ _ (safe_serializeElem ns [] c h.1 (by simp))
      (safe_serializeKids ns cs h.2)
end

/-! ## Lemmas: the manifest tree's namespaces and well-formedness -/

theorem nsAdd_plain (acc : List (String × String)) (q : String)
    (hq : qualifiedSplit q = none) : nsAdd acc q = acc := by
  simp [nsAdd, hq]

theorem nsCollectElem_file (v : String) (acc : List (String × String)) :
    nsCollectElem (XElem.mk "file" [("href", v)] none []) acc = acc := by
  simp only [nsCollectElem, nsCollectList, List.foldl_cons, List.foldl_nil]
  rw [nsAdd_plain acc "file" (by decide)]
  exact nsAdd_plain acc "href" (by decide)

theorem nsCollectList_files :
    ∀ (fs : List String) (acc : List (String × String)),
      nsCollectList (fs.map fun f => XElem.mk "file" [("href", pyReplace f "\\" "/")] none []) acc
        = acc
  | [], acc => rfl
  | f :: fs, acc => by
    rw [List.map_cons, nsCollectList, nsCollectElem_file]
    exact nsCollectList_files fs acc

/-- The only namespace the generated tree uses is the ADL one, under the
registered prefix `adlcp`. -/
theorem nsCollect_manifestTree (t i l : String) (fs : List String) :
    nsCollectElem (manifestTree t i l fs) [] = [(NS_ADLCP, "adlcp")] := by
  simp only [manifestTree, nsCollectElem, nsCollectList, List.foldl_cons, List.foldl_nil]
  rw [nsAdd_plain [] "manifest" (by decide), nsAdd_plain [] "identifier" (by decide),
    nsAdd_plain [] "version" (by decide), nsAdd_plain [] "metadata" (by decide),
    nsAdd_plain [] "schema" (by decide), nsAdd_plain [] "schemaversion" (by decide),
    nsAdd_plain [] "organizations" (by decide), nsAdd_plain [] "default" (by decide),
    nsAdd_plain [] "organization" (by decide), nsAdd_plain [] "identifier" (by decide),
    nsAdd_plain [] "title" (by decide), nsAdd_plain [] "item" (by decide),
    nsAdd_plain [] "identifier" (by decide), nsAdd_plain [] "identifierref" (by decide),
    nsAdd_plain [] "title" (by decide), nsAdd_plain [] "resources" (by decide),
    nsAdd_plain [] "resource" (by decide), nsAdd_plain [] "identifier" (by decide),
    nsAdd_plain [] "type" (by decide)]
  have hscorm : nsAdd [] ("\x7b" ++ NS_ADLCP ++ "\x7dscormtype") = [(NS_ADLCP, "adlcp")] := by
    decide
  rw [hscorm, nsAdd_plain [(NS_ADLCP, "adlcp")] "href" (by decide)]
  exact nsCollectList_files (List.insertionSort (fun a b : String => strLeB a b = true) fs)
    [(NS_ADLCP, "adlcp")]

theorem goodKids_files :
    ∀ fs : List String,
      GoodKids [(NS_ADLCP, "adlcp")]
        (fs.map fun f => XElem.mk "file" [("href", pyReplace f "\\" "/")] none [])
  | [] => trivial
  | f :: fs =>
    ⟨⟨by decide, by decide, by decide,
      ⟨(by decide : '<' ∉ (qnameOf [(NS_ADLCP, "adlcp")] "href").data), trivial⟩, trivial⟩,
      goodKids_files fs⟩

/-- The generated tree is well-formed for serialization under the
collected namespace table. -/
theorem good_manifestTree (t i l : String) (fs : List String) :
    GoodElem [(NS_ADLCP, "adlcp")] (manifestTree t i l fs) := by
  rw [manifestTree]
  refine ⟨by decide, by decide, by decide,
    ⟨(by decide : '<' ∉ (qnameOf [(NS_ADLCP, "adlcp")] "identifier").data), by decide, trivial⟩,
    ?_, ?_, ?_, trivial⟩
  · exact ⟨by decide, by decide, by decide, trivial,
      ⟨by decide, by decide, by decide, trivial, trivial⟩,
      ⟨by decide, by decide, by decide, trivial, trivial⟩, trivial⟩
  · refine ⟨by decide, by decide, by decide, ⟨by decide, trivial⟩, ?_, trivial⟩
    refine ⟨by decide, by decide, by decide, ⟨by decide, trivial⟩, ?_, ?_, trivial⟩
    · exact ⟨by decide, by decide, by decide, trivial, trivial⟩
    · exact ⟨by decide, by decide, by decide, ⟨by decide, by decide, trivial⟩,
        ⟨by decide, by decide, by decide, trivial, trivial⟩, trivial⟩
  · refine ⟨by decide, by decide, by decide, trivial, ?_, trivial⟩
    exact ⟨by decide, by decide, by decide,
      ⟨by decide, by decide, by decide,
        (by decide : '<' ∉ (qnameOf [(NS_ADLCP, "adlcp")] "href").data), trivial⟩,
      goodKids_files (List.insertionSort (fun a b : String => strLeB a b = true) fs)⟩

/-! ## Claim theorems -/

/-- C2: for every ManifestSpec, the byte output of `generate_manifest` is
exactly one XML declaration `<?xml version="1.0" encoding="UTF-8"?>`
followed by the `ET.tostring` serialization of the element tree; the
serialization itself contains no `<?` sequence (so no second declaration
anywhere) and begins with the element tree's opening `<`, making the
output a document with a single prolog. -/
theorem generate_manifest_single_prolog (t i l : String) (fs : List String) :
    generate_manifest t i l fs =
      "<?xml version=\"1.0\" encoding=\"UTF-8\"?>\n" ++ tostring (manifestTree t i l fs) ∧
    hasLtQm (tostring (manifestTree t i l fs)).data = false ∧
    (tostring (manifestTree t i l fs)).data.head? = some '<' := by
  have ht : tostring (manifestTree t i l fs) =
      serializeElem [(NS_ADLCP, "adlcp")] [(NS_ADLCP, "adlcp")] (manifestTree t i l fs) := by
    simp only [tostring]
    rw [nsCollect_manifestTree]
    rfl
  refine ⟨rfl, ?_, ?_⟩
  · rw [ht]
    exact (safe_serializeElem [(NS_ADLCP, "adlcp")] [(NS_ADLCP, "adlcp")]
      (manifestTree t i l fs) (good_manifestTree t i l fs) (by decide)).1
  · rw [ht]
    simp only [manifestTree, serializeElem, List.isEmpty_cons, Bool.and_false]
    rw [if_neg (by decide : ¬ (false = true))]
    have h1 : (("<" ++ qnameOf [(NS_ADLCP, "adlcp")] "manifest") : String).data.head? =
        some '<' := rfl
    simp only [data_append, List.head?_append, h1, List.head?_cons, Option.or_some]

/-- `strLtL` decides Mathlib's lexicographic `<` on character lists. -/
theorem strLtL_iff : ∀ x y : List Char, strLtL x y = true ↔ List.Lex (· < ·) x y
  | [], [] => by
    rw [strLtL]
    exact iff_of_false (by simp) (fun h => by cases h)
  | [], b :: bs => by
    rw [strLtL]
    exact iff_of_true rfl List.Lex.nil
  | a :: as, [] => by
    rw [strLtL]
    exact iff_of_false (by simp) (fun h => by cases h)
  | a :: as, b :: bs => by
    rw [strLtL]
    by_cases hab : a < b
    · rw [if_pos hab]
      exact iff_of_true rfl (List.Lex.rel hab)
    · rw [if_neg hab]
      by_cases hba : b < a
      · rw [if_pos hba]
        refine iff_of_false (by simp) fun h => ?_
        cases h with
        | cons h => exact lt_irrefl a hba
        | rel h => exact hab h
      · rw [if_neg hba]
        have heq : a = b := le_antisymm (le_of_not_lt hba) (le_of_not_lt hab)
        subst heq
        rw [strLtL_iff as bs]
        constructor
        · exact List.Lex.cons
        · intro h
          cases h with
          | cons h => exact h
          | rel h => exact absurd h hab

/-- `strLeB` decides `≤` on strings. -/
theorem strLeB_iff (a b : String) : strLeB a b = true ↔ a ≤ b := by
  rw [strLeB, Bool.not_eq_true']
  rw [show (a ≤ b) = ¬ (b < a) from rfl, String.lt_iff_toList_lt]
  rw [show (b.toList < a.toList) = List.Lex (· < ·) b.data a.data from rfl]
  constructor
  · intro h hlt
    rw [(strLtL_iff b.data a.data).mpr hlt] at h
    cases h
  · intro h
    cases hx : strLtL b.data a.data with
    | false => rfl
    | true => exact absurd ((strLtL_iff _ _).mp hx) h

theorem fileHrefs_manifestTree (t i l : String) (F : List String) :
    fileHrefs (manifestTree t i l F) =
      (List.insertionSort (fun a b : String => strLeB a b = true) F).map
        fun f => pyReplace f "\\" "/" := by
  simp only [fileHrefs, resourceElem, manifestTree, XElem.children, List.drop_succ_cons,
    List.drop_zero, List.head?_cons]
  rw [List.filter_eq_self.mpr]
  · rw [List.filterMap_map]
    exact List.filterMap_eq_map _ ▸ rfl
  · intro c hc
    rcases List.mem_map.mp hc with ⟨f, _, rfl⟩
    exact (by decide : decide (("file" : String) = "file") = true)

/-- C3: for every StagedCourse file set `F` (forward-slash paths, per the
data-model invariant), the `file/@href` values of the generated manifest
equal `F` as a set, appear in lexicographic order, and contain no
backslash. -/
theorem manifest_file_hrefs (t i l : String) (F : List String)
    (hF : ∀ f ∈ F, '\\' ∉ f.data) :
    (∀ x, x ∈ fileHrefs (manifestTree t i l F) ↔ x ∈ F) ∧
    List.Pairwise (fun a b : String => a ≤ b) (fileHrefs (manifestTree t i l F)) ∧
    ∀ x ∈ fileHrefs (manifestTree t i l F), '\\' ∉ x.data := by
  have hid : fileHrefs (manifestTree t i l F) =
      List.insertionSort (fun a b : String => strLeB a b = true) F := by
    rw [fileHrefs_manifestTree]
    have : ∀ f ∈ List.insertionSort (fun a b : String => strLeB a b = true) F,
        pyReplace f "\\" "/" = id f :=
      fun f hf => pyReplace_backslash_eq_self f
        (hF f ((List.mem_insertionSort (fun a b : String => strLeB a b = true)).mp hf))
    rw [List.map_congr_left this, List.map_id]
  refine ⟨?_, ?_, ?_⟩
  · intro x
    rw [hid]
    exact List.mem_insertionSort (fun a b : String => strLeB a b = true)
  · rw [hid]
    haveI : IsTotal String (fun a b => strLeB a b = true) :=
      ⟨fun a b => (le_total a b).imp (strLeB_iff a b).mpr (strLeB_iff b a).mpr⟩
    haveI : IsTrans String (fun a b => strLeB a b = true) :=
      ⟨fun a b c hab hbc => (strLeB_iff a c).mpr
        (le_trans ((strLeB_iff a b).mp hab) ((strLeB_iff b c).mp hbc))⟩
    exact (List.sorted_insertionSort (fun a b : String => strLeB a b = true) F).imp
      fun h => (strLeB_iff _ _).mp h
  · rw [fileHrefs_manifestTree]
    intro x hx
    rcases List.mem_map.mp hx with ⟨f, _, rfl⟩
    exact not_mem_data_pyReplace_backslash f

theorem string_eq_of_data {a b : String} (h : a.data = b.data) : a = b := by
  cases a
  cases b
  cases h
  rfl

/-- Inversion of a successful pipeline run: the staging result, file list,
launch-file choice, manifest bytes, archive entries and download name a
successful `PackageResult` carries. -/
theorem pipeline_ok_inv (title scormId : String) (u : Upload) (r : PackageResult)
    (h : pipeline title scormId u = .ok r) :
    r.pkgName = pyReplace (pyStrip title) " " "_" ++ "_SCORM.zip" ∧
    r.manifestBytes = generate_manifest title scormId r.launch r.fileList ∧
    ∃ tree : List Entry, stage u = .ok tree ∧
      r.fileList = (tree.filter (·.isFile)).map (fun e => pyReplace e.path "\\" "/") ∧
      r.entries = (tree.filter (·.isFile)).map
          (fun e => (pyReplace e.path "\\" "/", e.content)) ++
        [("imsmanifest.xml", r.manifestBytes)] ∧
      ∃ (first : Entry) (rest : List Entry),
        tree.filter (fun e => rglobMatch ".html" e.path) ++
          tree.filter (fun e => rglobMatch ".htm" e.path) = first :: rest ∧
        r.launch = if tree.any (fun e => e.path = "index.html") then "index.html"
                   else pyReplace first.path "\\" "/" := by
  unfold pipeline at h
  split at h
  · exact absurd h (by simp)
  · rename_i tree hstage
    split at h
    · rename_i hany
      cases hsplit : (List.filter (fun e => rglobMatch ".html" e.path) tree ++
          List.filter (fun e => rglobMatch ".htm" e.path) tree) with
      | nil =>
        simp only [hsplit] at h
        exact absurd h (by simp)
      | cons first rest =>
        simp only [hsplit] at h
        injection h with h
        subst h
        exact ⟨rfl, rfl, tree, hstage, rfl, rfl, first, rest, hsplit, by rw [if_pos hany]⟩
    · rename_i hany
      cases hsplit : (List.filter (fun e => rglobMatch ".html" e.path) tree ++
          List.filter (fun e => rglobMatch ".htm" e.path) tree) with
      | nil =>
        simp only [hsplit] at h
        exact absurd h (by simp)
      | cons first rest =>
        simp only [hsplit] at h
        injection h with h
        subst h
        exact ⟨rfl, rfl, tree, hstage, rfl, rfl, first, rest, hsplit, by rw [if_neg hany]⟩

/-- C3 witness: a concrete two-file StagedCourse. -/
theorem manifest_file_hrefs_witness :
    (∀ x, x ∈ fileHrefs (manifestTree "T" "ID" "index.html" ["index.html", "assets/a.css"]) ↔
      x ∈ ["index.html", "assets/a.css"]) ∧
    List.Pairwise (fun a b : String => a ≤ b)
      (fileHrefs (manifestTree "T" "ID" "index.html" ["index.html", "assets/a.css"])) ∧
    ∀ x ∈ fileHrefs (manifestTree "T" "ID" "index.html" ["index.html", "assets/a.css"]),
      '\\' ∉ x.data :=
  manifest_file_hrefs "T" "ID" "index.html" ["index.html", "assets/a.css"] (by decide)


set_option maxRecDepth 4000 in
/-- C1: evaluating `generate_manifest`'s tree and serialization on a
concrete ManifestSpec. The root element's tag is the unqualified
`manifest` (not the `imscp_v1p1`-qualified name), the only namespace the
serializer declares is `adlcp` (the IMS CP default namespace and the
`xsi` prefix registered on lines 25-27 are never used by any qualified
name, so ElementTree omits them), and the serialized root carries a lone
`xmlns:adlcp` declaration — contradicting the claimed namespaced root
with `adlcp` and `xsi` declarations. -/
theorem manifest_namespace_divergence :
    (manifestTree "Demo Course" "ID-1" "index.html" ["index.html"]).tag = "manifest" ∧
    (manifestTree "Demo Course" "ID-1" "index.html" ["index.html"]).tag ≠
      "\x7b" ++ NS_IMSCP ++ "\x7dmanifest" ∧
    nsCollectElem (manifestTree "Demo Course" "ID-1" "index.html" ["index.html"]) [] =
      [(NS_ADLCP, "adlcp")] ∧
    (nsCollectElem (manifestTree "Demo Course" "ID-1" "index.html" ["index.html"]) []).lookup
      NS_XSI = none ∧
    (nsCollectElem (manifestTree "Demo Course" "ID-1" "index.html" ["index.html"]) []).lookup
      NS_IMSCP = none ∧
    tostring (manifestTree "Demo Course" "ID-1" "index.html" ["index.html"]) =
      "<manifest xmlns:adlcp=\"http://www.adlnet.org/xsd/adlcp_v1p3\" identifier=\"ID-1\" version=\"1\"><metadata><schema>ADL SCORM</schema><schemaversion>1.2</schemaversion></metadata><organizations default=\"ORG-1\"><organization identifier=\"ORG-1\"><title>Demo Course</title><item identifier=\"ITEM-1\" identifierref=\"RES-1\"><title>Demo Course</title></item></organization></organizations><resources><resource identifier=\"RES-1\" type=\"webcontent\" adlcp:scormtype=\"sco\" href=\"index.html\"><file href=\"index.html\" /></resource></resources></manifest>" := by
  refine ⟨rfl, by decide, by decide, by decide, by decide, ?_⟩
  decide

/-- C4 counterexample: for the staged tree `[a.htm, b.html]` (both
files, in that enumeration order), the code launches `b.html` — `rglob`
collects all `*.html` matches before any `*.htm` match — while the first
HTML/HTM document in enumeration order is `a.htm`. -/
theorem launch_file_order_counterexample :
    (pipeline "T" "ID" ⟨"c.zip", "", .ok [⟨"a.htm", true, "x"⟩, ⟨"b.html", true, "y"⟩]⟩).toOption.map
      (fun r => r.launch) = some "b.html" ∧
    specFirstHtmlDoc [⟨"a.htm", true, "x"⟩, ⟨"b.html", true, "y"⟩] = some "a.htm" ∧
    ("b.html" : String) ≠ "a.htm" := by
  refine ⟨by decide, by decide, by decide⟩

/-- C4 amended: for a zip upload whose staged tree has at least one
`rglob` HTML/HTM match, the launch file is `index.html` whenever an entry
(file or directory) of that name exists at the tree root; otherwise it is
the slash-normalized path of the first entry in the concatenation of the
`*.html` matches (in enumeration order) followed by the `*.htm` matches —
so `docs/index.html` is selected exactly when it heads that list. -/
theorem launch_file_selection_amended (title scormId name raw : String) (tree : List Entry)
    (hzip : pyEndsWith (pyLower name) ".zip" = true)
    (first : Entry) (rest : List Entry)
    (hhtml : tree.filter (fun e => rglobMatch ".html" e.path) ++
      tree.filter (fun e => rglobMatch ".htm" e.path) = first :: rest) :
    ∃ r, pipeline title scormId ⟨name, raw, .ok tree⟩ = .ok r ∧
      r.launch = if tree.any (fun e => e.path = "index.html") then "index.html"
                 else pyReplace first.path "\\" "/" := by
  have hstage : stage (⟨name, raw, .ok tree⟩ : Upload) = .ok tree := by
    unfold stage
    rw [if_pos hzip]
  unfold pipeline
  simp only [hstage, hhtml]
  exact ⟨_, rfl, rfl⟩

/-- C4 amended witness: an archive containing only `docs/index.html`
resolves the launch file to `docs/index.html`. -/
theorem launch_file_selection_amended_witness :
    (∃ r, pipeline "T" "ID"
        ⟨"c.zip", "", .ok [⟨"docs", false, ""⟩, ⟨"docs/index.html", true, "h"⟩]⟩ = .ok r ∧
      r.launch = if ([⟨"docs", false, ""⟩, ⟨"docs/index.html", true, "h"⟩] : List Entry).any
          (fun e => e.path = "index.html") then "index.html"
        else pyReplace "docs/index.html" "\\" "/") ∧
    (if ([⟨"docs", false, ""⟩, ⟨"docs/index.html", true, "h"⟩] : List Entry).any
        (fun e => e.path = "index.html") then "index.html"
      else pyReplace "docs/index.html" "\\" "/") = "docs/index.html" :=
  ⟨launch_file_selection_amended "T" "ID" "c.zip" ""
    [⟨"docs", false, ""⟩, ⟨"docs/index.html", true, "h"⟩] (by decide)
    ⟨"docs/index.html", true, "h"⟩ [] (by decide), by decide⟩

/-- C5: on a staged tree whose only entries are a directory named
`x.html` and the non-HTML file `x.html/y.png` — zero HTML/HTM documents —
the pipeline does not fail with NoContentFound: `rglob('*.html')` matches
the directory, and a package is produced with the directory as launch
file (the archive has two entries: the png and `imsmanifest.xml`). -/
theorem no_content_found_dir_bug :
    (([⟨"x.html", false, ""⟩, ⟨"x.html/y.png", true, "p"⟩] : List Entry).all
      (fun e => !e.isFile || !(rglobMatch ".html" e.path || rglobMatch ".htm" e.path))) = true ∧
    (pipeline "T" "ID" ⟨"c.zip", "", .ok [⟨"x.html", false, ""⟩, ⟨"x.html/y.png", true, "p"⟩]⟩).toOption.map
      (fun r => (r.launch, r.entries.map Prod.fst)) =
      some ("x.html", ["x.html/y.png", "imsmanifest.xml"]) := by
  refine ⟨by decide, by decide⟩

/-- C6 counterexample: a `.zip` upload whose archive uses a compression
method CPython does not implement raises `NotImplementedError` inside
`extractall`; the `except zipfile.BadZipFile` handler does not catch it,
so the run crashes instead of reporting InvalidArchive. -/
theorem invalid_archive_counterexample :
    pipeline "T" "ID" ⟨"c.zip", "", .unsupportedCompression⟩ = .error .uncaughtException ∧
    (Except.error AppError.uncaughtException : Except AppError PackageResult) ≠
      .error .invalidArchive := by
  refine ⟨rfl, fun h => ?_⟩
  injection h with h2
  exact AppError.noConfusion h2

/-- C6 amended: for a `.zip`-named upload, a corrupt archive
(`BadZipFile`) is reported as InvalidArchive with no output, while an
archive with an unsupported compression method crashes with an uncaught
exception (also with no output archive). -/
theorem invalid_archive_amended (title scormId : String) (u : Upload)
    (hzip : pyEndsWith (pyLower u.name) ".zip" = true) :
    (u.zipView = .badZip → pipeline title scormId u = .error .invalidArchive) ∧
    (u.zipView = .unsupportedCompression → pipeline title scormId u = .error .uncaughtException) := by
  constructor <;> intro hv <;>
  · unfold pipeline stage
    rw [if_pos hzip, hv]

/-- C6 amended witness: the two error paths at a concrete upload. -/
theorem invalid_archive_amended_witness :
    ((⟨"c.zip", "", .badZip⟩ : Upload).zipView = .badZip →
      pipeline "T" "ID" ⟨"c.zip", "", .badZip⟩ = .error .invalidArchive) ∧
    ((⟨"c.zip", "", .badZip⟩ : Upload).zipView = .unsupportedCompression →
      pipeline "T" "ID" ⟨"c.zip", "", .badZip⟩ = .error .uncaughtException) :=
  invalid_archive_amended "T" "ID" ⟨"c.zip", "", .badZip⟩ (by decide)

/-- C7 counterexample: an uploaded single document named `myindex.html`
is not renamed — the code tests `endswith(('index.html', 'index.htm'))`,
which `myindex.html` satisfies — so it is staged under its original name
and the manifest's resource href is `myindex.html`, not `index.html`. -/
theorem single_html_rename_counterexample :
    (pipeline "T" "ID" ⟨"myindex.html", "<html></html>", .badZip⟩).toOption.map
      (fun r => (r.launch, r.fileList)) = some ("myindex.html", ["myindex.html"]) ∧
    resourceHref (manifestTree "T" "ID" "myindex.html" ["myindex.html"]) =
      some "myindex.html" ∧
    ("myindex.html" : String) ≠ "index.html" := by
  refine ⟨by decide, by decide, by decide⟩

/-- A single staged markup file whose name matches `*.html` or `*.htm`
and contains no backslash becomes the sole file list entry and the launch
file. -/
theorem pipeline_single_markup (title scormId name raw : String) (zv : ZipView) (t0 : String)
    (hstage : stage (⟨name, raw, zv⟩ : Upload) = .ok [⟨t0, true, raw⟩])
    (hmatch : (rglobMatch ".html" t0 || rglobMatch ".htm" t0) = true)
    (hnobs : '\\' ∉ t0.data) :
    ∃ r, pipeline title scormId ⟨name, raw, zv⟩ = .ok r ∧ r.fileList = [t0] ∧ r.launch = t0 := by
  have hfil : ∃ tail, List.filter (fun e => rglobMatch ".html" e.path) [(⟨t0, true, raw⟩ : Entry)] ++
      List.filter (fun e => rglobMatch ".htm" e.path) [(⟨t0, true, raw⟩ : Entry)] =
      (⟨t0, true, raw⟩ : Entry) :: tail := by
    cases h1 : rglobMatch ".html" t0 with
    | true =>
      exact ⟨List.filter (fun e => rglobMatch ".htm" e.path) [(⟨t0, true, raw⟩ : Entry)],
        by simp [List.filter_cons, h1]⟩
    | false =>
      have h2 : rglobMatch ".htm" t0 = true := by simpa [h1] using hmatch
      exact ⟨[], by simp [List.filter_cons, h1, h2]⟩
  obtain ⟨tail, hfil⟩ := hfil
  unfold pipeline
  simp only [hstage, hfil]
  refine ⟨_, rfl, ?_, ?_⟩
  · show List.map (fun e => pyReplace e.path "\\" "/")
      (List.filter (fun e => e.isFile) [(⟨t0, true, raw⟩ : Entry)]) = [t0]
    simp [pyReplace_backslash_eq_self t0 hnobs]
  · show (if (([(⟨t0, true, raw⟩ : Entry)] : List Entry).any
        fun e => e.path = "index.html") then "index.html"
      else pyReplace t0 "\\" "/") = t0
    by_cases ht : t0 = "index.html"
    · rw [if_pos (by simp [ht]), ht]
    · rw [if_neg (by simp [ht]), pyReplace_backslash_eq_self t0 hnobs]

/-- C7 amended: an uploaded single markup document (name not ending in
`.zip`, matching `*.html`/`*.htm` case-sensitively, backslash-free) is
staged under its original name whenever its lowercased name ends with
`index.html` or `index.htm` (an `endswith` test, so e.g. `myindex.html`
also keeps its name); every other name is staged as `index.html`.  The
staged name is the sole file list entry and the launch file (hence the
manifest's resource href). -/
theorem single_html_rename_amended (title scormId name raw : String) (zv : ZipView)
    (hnotzip : pyEndsWith (pyLower name) ".zip" = false)
    (hmatch : (rglobMatch ".html" name || rglobMatch ".htm" name) = true)
    (hnobs : '\\' ∉ name.data) :
    ∃ r, pipeline title scormId ⟨name, raw, zv⟩ = .ok r ∧
      r.fileList = [if pyEndsWith (pyLower name) "index.html" ||
          pyEndsWith (pyLower name) "index.htm" then name else "index.html"] ∧
      r.launch = (if pyEndsWith (pyLower name) "index.html" ||
          pyEndsWith (pyLower name) "index.htm" then name else "index.html") := by
  apply pipeline_single_markup
  · unfold stage
    rw [if_neg (by simp [hnotzip])]
  · by_cases hc : (pyEndsWith (pyLower name) "index.html" ||
        pyEndsWith (pyLower name) "index.htm") = true
    · rw [if_pos hc]
      exact hmatch
    · rw [if_neg hc]
      decide
  · by_cases hc : (pyEndsWith (pyLower name) "index.html" ||
        pyEndsWith (pyLower name) "index.htm") = true
    · rw [if_pos hc]
      exact hnobs
    · rw [if_neg hc]
      decide

/-- C7 amended witness: `foo.html` is staged as `index.html`;
`myindex.html` keeps its name. -/
theorem single_html_rename_amended_witness :
    (∃ r, pipeline "T" "ID" ⟨"foo.html", "<html></html>", .badZip⟩ = .ok r ∧
      r.fileList = [if pyEndsWith (pyLower "foo.html") "index.html" ||
          pyEndsWith (pyLower "foo.html") "index.htm" then "foo.html" else "index.html"] ∧
      r.launch = (if pyEndsWith (pyLower "foo.html") "index.html" ||
          pyEndsWith (pyLower "foo.html") "index.htm" then "foo.html" else "index.html")) ∧
    (if pyEndsWith (pyLower "foo.html") "index.html" ||
        pyEndsWith (pyLower "foo.html") "index.htm" then "foo.html" else "index.html")
      = "index.html" :=
  ⟨single_html_rename_amended "T" "ID" "foo.html" "<html></html>" .badZip
    (by decide) (by decide) (by decide), by decide⟩

/-- C8: a zip whose staged tree is a directory named `index.html`
containing `index.html/a.html`.  `Path.exists()` is true for the
directory, so the code selects launch file `index.html`, which is not in
the file list — manifest generation is reached with the ManifestSpec
invariant violated. -/
theorem manifest_invariant_dir_index_bug :
    (pipeline "T" "ID"
      ⟨"c.zip", "", .ok [⟨"index.html", false, ""⟩, ⟨"index.html/a.html", true, "a"⟩]⟩).toOption.map
      (fun r => (r.launch, r.fileList, decide (r.launch ∈ r.fileList))) =
      some ("index.html", ["index.html/a.html"], false) := by
  decide

/-- C9 counterexample: a title containing a tab.  The code only strips
the ends and replaces the space character, so the tab survives into the
archive name, while the claimed sanitization (every whitespace character
becomes an underscore) would produce `a_b_SCORM.zip`. -/
theorem pkg_name_counterexample :
    (pipeline "a\tb" "ID" ⟨"x.html", "h", .badZip⟩).toOption.map (fun r => r.pkgName) =
      some "a\tb_SCORM.zip" ∧
    specSanitizedName "a\tb" = "a_b_SCORM.zip" ∧
    ("a\tb_SCORM.zip" : String) ≠ "a_b_SCORM.zip" := by
  refine ⟨by decide, by decide, by decide⟩

/-- C9 amended: the output archive name is the title with leading and
trailing whitespace stripped and each remaining space character (U+0020)
replaced by an underscore, followed by `_SCORM.zip`; other whitespace
characters pass through unchanged. -/
theorem pkg_name_amended (title scormId : String) (u : Upload) (r : PackageResult)
    (h : pipeline title scormId u = .ok r) :
    r.pkgName = String.mk ((pyStrip title).data.map fun c => if c = ' ' then '_' else c) ++
      "_SCORM.zip" := by
  rw [(pipeline_ok_inv title scormId u r h).1]
  congr 1
  exact string_eq_of_data (pyReplace_singleton_map (pyStrip title) " " "_" ' ' '_' rfl rfl)

/-- C9 amended witness: title `" Demo Course "` yields
`Demo_Course_SCORM.zip`. -/
theorem pkg_name_amended_witness :
    (∃ r, pipeline " Demo Course " "ID" ⟨"lesson.html", "<html></html>", .badZip⟩ = .ok r ∧
      r.pkgName = String.mk ((pyStrip " Demo Course ").data.map
        fun c => if c = ' ' then '_' else c) ++ "_SCORM.zip") ∧
    String.mk ((pyStrip " Demo Course ").data.map fun c => if c = ' ' then '_' else c) ++
      "_SCORM.zip" = "Demo_Course_SCORM.zip" := by
  refine ⟨?_, by decide⟩
  have hok : (pipeline " Demo Course " "ID" ⟨"lesson.html", "<html></html>", .badZip⟩).isOk
      = true := by decide
  cases hp : pipeline " Demo Course " "ID" ⟨"lesson.html", "<html></html>", .badZip⟩ with
  | ok r => exact ⟨r, rfl, pkg_name_amended " Demo Course " "ID" _ r hp⟩
  | error e => rw [hp] at hok; simp [Except.isOk, Except.toBool] at hok

/-- C10: when the staged tree itself contains a file named
`imsmanifest.xml` (uniquely, as filesystem paths are), the packaging step
writes two archive entries of that name — the staged file (among the file
entries) and the generated manifest bytes (appended last by `writestr`) —
and the generated manifest's file list and `file/@href` values include
`imsmanifest.xml`, which names the staged file's archive slot, not the
generated manifest. -/
theorem manifest_duplicate_entry (title scormId name raw : String) (tree : List Entry)
    (c : String) (r : PackageResult)
    (hzip : pyEndsWith (pyLower name) ".zip" = true)
    (hmem : (⟨"imsmanifest.xml", true, c⟩ : Entry) ∈ tree)
    (huniq : tree.countP
      (fun e => (pyReplace e.path "\\" "/" == "imsmanifest.xml") && e.isFile) = 1)
    (h : pipeline title scormId ⟨name, raw, .ok tree⟩ = .ok r) :
    r.entries.countP (fun kv => kv.1 == "imsmanifest.xml") = 2 ∧
    r.entries.getLast? = some ("imsmanifest.xml", r.manifestBytes) ∧
    ("imsmanifest.xml", c) ∈ r.entries ∧
    "imsmanifest.xml" ∈ r.fileList ∧
    "imsmanifest.xml" ∈ fileHrefs (manifestTree title scormId r.launch r.fileList) := by
  obtain ⟨-, hman, tree', hstage', hfl, hent, -⟩ := pipeline_ok_inv _ _ _ r h
  have htree : tree' = tree := by
    unfold stage at hstage'
    rw [if_pos hzip] at hstage'
    exact (Except.ok.inj hstage').symm
  rw [htree] at hfl hent
  have hnorm : pyReplace "imsmanifest.xml" "\\" "/" = "imsmanifest.xml" := by decide
  have hmemfl : "imsmanifest.xml" ∈ r.fileList := by
    rw [hfl]
    exact List.mem_map.mpr ⟨⟨"imsmanifest.xml", true, c⟩,
      List.mem_filter.mpr ⟨hmem, rfl⟩, hnorm⟩
  refine ⟨?_, ?_, ?_, hmemfl, ?_⟩
  · rw [hent, List.countP_append]
    have h1 : List.countP (fun kv => kv.1 == "imsmanifest.xml")
        ((tree.filter (·.isFile)).map fun e => (pyReplace e.path "\\" "/", e.content)) = 1 := by
      rw [List.countP_map, List.countP_filter]
      exact huniq
    have h2 : List.countP (fun kv => kv.1 == "imsmanifest.xml")
        [("imsmanifest.xml", r.manifestBytes)] = 1 := by
      simp [List.countP_cons]
    rw [h1, h2]
  · rw [hent]
    exact List.getLast?_concat _
  · rw [hent]
    refine List.mem_append.mpr (Or.inl ?_)
    refine List.mem_map.mpr ⟨⟨"imsmanifest.xml", true, c⟩,
      List.mem_filter.mpr ⟨hmem, rfl⟩, ?_⟩
    show (pyReplace "imsmanifest.xml" "\\" "/", c) = ("imsmanifest.xml", c)
    rw [hnorm]
  · rw [fileHrefs_manifestTree]
    exact List.mem_map.mpr ⟨"imsmanifest.xml",
      (List.mem_insertionSort (fun a b : String => strLeB a b = true)).mpr hmemfl, hnorm⟩

/-- C10 witness: a concrete zip staging `imsmanifest.xml` plus one HTML
file. -/
theorem manifest_duplicate_entry_witness :
    ∃ r, pipeline "T" "ID"
        ⟨"c.zip", "", .ok [⟨"imsmanifest.xml", true, "old"⟩, ⟨"a.html", true, "h"⟩]⟩ = .ok r ∧
      (r.entries.countP (fun kv => kv.1 == "imsmanifest.xml") = 2 ∧
       r.entries.getLast? = some ("imsmanifest.xml", r.manifestBytes) ∧
       ("imsmanifest.xml", "old") ∈ r.entries ∧
       "imsmanifest.xml" ∈ r.fileList ∧
       "imsmanifest.xml" ∈ fileHrefs (manifestTree "T" "ID" r.launch r.fileList)) := by
  have hok : (pipeline "T" "ID"
      ⟨"c.zip", "", .ok [⟨"imsmanifest.xml", true, "old"⟩, ⟨"a.html", true, "h"⟩]⟩).isOk
      = true := by decide
  cases hp : pipeline "T" "ID"
      ⟨"c.zip", "", .ok [⟨"imsmanifest.xml", true, "old"⟩, ⟨"a.html", true, "h"⟩]⟩ with
  | ok r =>
    exact ⟨r, rfl, manifest_duplicate_entry "T" "ID" "c.zip" "" _ "old" r
      (by decide) (by decide) (by decide) hp⟩
  | error e => rw [hp] at hok; simp [Except.isOk, Except.toBool] at hok

end HtmlToScorm
